import Mathlib

/-!
Verification of the `consistent-unwrap` ESLint rule
(`src/packages/eslint-plugin/src/rules/consistent-unwrap.ts`).

The rule tracks a stack of wrap scopes while the host traversal fires
enter/exit callbacks.  We embed the relevant AST shapes (call expressions,
identifiers, await expressions, function literals, type-query / union type
nodes), the four handlers (`onWrapCall`, `enterFunction`, `onUnwrapCall`,
`exitFunction`) and the depth-first traversal order of the host
(CallExpression enter fires `onWrapCall` then `onUnwrapCall`; function
literals fire `enterFunction` on enter and `exitFunction` on exit; a call
node's callee is traversed before its arguments).

AST nodes carry a `Nat` identity standing for JavaScript reference
identity: the source compares function nodes with `!==` and anchors
diagnostics at nodes, which we render as node ids.
-/

/-- Message catalog of the rule (`meta.messages`, lines 29-38). -/
inductive MessageId where
  | badWrap
  | badUnwrap
  | missingTypeParamInWrap
  | badUnwrapArg
  | badWrapTypeArg
  | duplicatedWrapArg
  | unwrapNotInWrap
  | wrappedFnNotUnwrapped
deriving DecidableEq, Repr

/-- Target of the synthesized fix (lines 127-129): either
`fixer.insertTextAfter(callee, ...)` or `fixer.replaceText(typeParameters, ...)`. -/
inductive FixTarget where
  | insertAfter (nodeId : Nat)
  | replaceNode (nodeId : Nat)
deriving DecidableEq, Repr

/-- The synthesized fix (lines 184-189): the target together with
`[...unwrappedFns.keys()]`, the names rendered as `typeof n` joined by
unions. -/
structure RuleFix where
  target : FixTarget
  names : List String
deriving DecidableEq, Repr

/-- The literal union text built at line 185:
`[...unwrappedFns.keys()].map((fn) => typeof fn).join(" | ")`; the full
inserted/replacing text is this wrapped in angle brackets. -/
def fixText (names : List String) : String :=
  String.intercalate " | " (names.map (fun n => "typeof " ++ n))

/-- One `context.report` invocation: message id, anchor node id, and the
optional fix attached (only `badWrap` carries one). -/
structure Report where
  messageId : MessageId
  nodeId : Nat
  fix : Option RuleFix
deriving DecidableEq, Repr

/-- Type-annotation nodes relevant to the rule: `TSTypeQuery` (whose
`exprName` is either an `Identifier`, rendered `some name`, or a qualified
name, rendered `none`), `TSUnionType`, and every other type node. -/
inductive TypeNode where
  | typeQuery (id : Nat) (exprName : Option String)
  | unionT (id : Nat) (types : List TypeNode)
  | otherT (id : Nat)

/-- Anchor id of a type node. -/
def TypeNode.nodeId : TypeNode → Nat
  | .typeQuery i _ => i
  | .unionT i _ => i
  | .otherT i => i

/-- A `TSTypeParameterInstantiation` node: its own identity (anchor of the
`replaceText` fix) and its `params`. -/
structure TypeParams where
  id : Nat
  params : List TypeNode

/-- Expression / statement-level AST shapes the rule inspects.  `fnE`
covers both `FunctionExpression` and `ArrowFunctionExpression` (the rule
registers identical handlers for both); `body` lists the expressions the
traversal visits inside the function.  `lit` stands for any other
expression (literals etc.). -/
inductive Expr where
  | ident (id : Nat) (name : String)
  | call (id : Nat) (callee : Expr) (typeParameters : Option TypeParams) (args : List Expr)
  | awaitE (id : Nat) (argument : Expr)
  | fnE (id : Nat) (arrow : Bool) (async : Bool) (body : List Expr)
  | lit (id : Nat)

/-- One open wrap scope (source type `WrapScope`, lines 8-16).  The
`upper` back-pointer is rendered by keeping scopes in a list whose head is
the active scope.  Map values are node ids of the recorded AST nodes. -/
structure ScopeData where
  fn : Nat
  callee : Nat
  typeParameters : Option TypeParams
  inFn : Bool
  unwrappedFns : List (String × Nat)
  wrappedFns : List (String × Nat)

/-- Checker state: the scope stack (`wrappedScope` with its `upper` chain;
head = active scope) and the reports emitted so far, in emission order. -/
structure St where
  scopes : List ScopeData
  reports : List Report

/-- JavaScript `Map.prototype.has`, on insertion-ordered association
lists. -/
def mapHas (m : List (String × Nat)) (k : String) : Bool :=
  m.any (fun p => p.1 == k)

/-- JavaScript `Map.prototype.set`: overwrite the value in place if the
key is present (keeping the key's original position), otherwise append. -/
def mapSet (m : List (String × Nat)) (k : String) (v : Nat) : List (String × Nat) :=
  match m with
  | [] => [(k, v)]
  | (k1, v1) :: rest =>
    if k1 == k then (k, v) :: rest else (k1, v1) :: mapSet rest k v

/-- JavaScript `Map.prototype.get` (as an `Option`). -/
def mapGet (m : List (String × Nat)) (k : String) : Option Nat :=
  match m with
  | [] => none
  | (k1, v1) :: rest => if k1 == k then some v1 else mapGet rest k

/-- `[...m.keys()]`: keys in insertion order. -/
def mapKeys (m : List (String × Nat)) : List String :=
  m.map Prod.fst

/-- Number of reports in `rs` carrying message `m`. -/
def countMsg (rs : List Report) (m : MessageId) : Nat :=
  (rs.filter (fun r => r.messageId == m)).length

/-- `onWrapCall` (lines 65-91): on a call whose callee is the identifier
`wrapName`, whose parent is a call with exactly one argument that is an
async function literal, push a fresh scope. -/
def onWrapCall (wrapName : String) (parent : Option Expr) (node : Expr) (st : St) : St :=
  match node with
  | .call _ callee typeParameters _ =>
    match callee with
    | .ident calleeId name =>
      if name = wrapName then
        match parent with
        | some (.call _ _ _ parentArgs) =>
          match parentArgs with
          | [fn] =>
            match fn with
            | .fnE fnId _ isAsync _ =>
              if isAsync then
                { st with scopes :=
                    { fn := fnId
                      callee := calleeId
                      typeParameters := typeParameters
                      inFn := false
                      unwrappedFns := []
                      wrappedFns := [] } :: st.scopes }
              else st
            | _ => st
          | _ => st
        | _ => st
      else st
    | _ => st
  | _ => st

/-- `enterFunction` (lines 93-96): entering the active scope's function
sets `inFn`. -/
def enterFunction (fnId : Nat) (st : St) : St :=
  match st.scopes with
  | [] => st
  | sc :: rest =>
    if sc.fn = fnId then { st with scopes := { sc with inFn := true } :: rest } else st

/-- `onUnwrapCall` (lines 97-120): inside an active, entered scope, a call
to `unwrapName` with exactly one argument has that argument peeled of at
most one `await`; if the result is a call with a bare identifier callee
its name is recorded in `unwrappedFns`, otherwise `badUnwrapArg` is
reported at the unwrap call and nothing is recorded. -/
def onUnwrapCall (unwrapName : String) (node : Expr) (st : St) : St :=
  match st.scopes with
  | [] => st
  | sc :: rest =>
    if !sc.inFn then st
    else
      match node with
      | .call nodeId callee _ args =>
        match callee with
        | .ident _ name =>
          if name = unwrapName then
            match args with
            | [arg] =>
              let callExpr := match arg with
                | .awaitE _ argument => argument
                | a => a
              match callExpr with
              | .call callId (.ident _ fnName) _ _ =>
                { st with scopes :=
                    { sc with unwrappedFns := mapSet sc.unwrappedFns fnName callId } :: rest }
              | _ =>
                { st with reports := st.reports ++ [Report.mk .badUnwrapArg nodeId none] }
            | _ => st
          else st
        | _ => st
      | _ => st

/-- `param.type === TSUnionType ? param.types : [param]` (lines 140-142). -/
def typesOfParam : TypeNode → List TypeNode
  | .unionT _ ts => ts
  | t => [t]

/-- The `types.forEach` loop of lines 144-163, threading the `wrappedFns`
map, the reports it emits (in order) and the `needFix` flag. -/
def processTypes (wrappedFns : List (String × Nat)) :
    List TypeNode → List (String × Nat) × List Report × Bool
  | [] => (wrappedFns, [], false)
  | tnode :: rest =>
    match tnode with
    | .typeQuery tid (some tname) =>
      if mapHas wrappedFns tname then
        let r := processTypes wrappedFns rest
        (r.1, Report.mk .duplicatedWrapArg tid none :: r.2.1, true)
      else
        processTypes (mapSet wrappedFns tname tid) rest
    | t =>
      let r := processTypes wrappedFns rest
      (r.1, Report.mk .badWrapTypeArg t.nodeId none :: r.2.1, true)

/-- Step 1 of reconciliation (lines 132-164): validate the declared
type-parameter list and populate `wrappedFns` (the `declaredTypes` map);
returns the populated map, the reports emitted and the `needFix` flag. -/
def validateDeclaredTypes (sc : ScopeData) : List (String × Nat) × List Report × Bool :=
  match sc.typeParameters with
  | none => (sc.wrappedFns, [Report.mk .missingTypeParamInWrap sc.callee none], true)
  | some tps =>
    match tps.params with
    | [param] => processTypes sc.wrappedFns (typesOfParam param)
    | _ => (sc.wrappedFns, [Report.mk .missingTypeParamInWrap sc.callee none], true)

/-- The `unwrappedFns.forEach` loop (lines 166-171): report
`unwrapNotInWrap` at the recorded call node for every unwrapped name not
declared. -/
def checkUnwrapped (wrappedFns : List (String × Nat)) :
    List (String × Nat) → List Report × Bool
  | [] => ([], false)
  | (fnName, nodeId) :: rest =>
    let r := checkUnwrapped wrappedFns rest
    if mapHas wrappedFns fnName then r
    else (Report.mk .unwrapNotInWrap nodeId none :: r.1, true)

/-- The `wrappedFns.forEach` loop (lines 173-178): report
`wrappedFnNotUnwrapped` at the type-reference node for every declared name
not unwrapped. -/
def checkWrapped (unwrappedFns : List (String × Nat)) :
    List (String × Nat) → List Report × Bool
  | [] => ([], false)
  | (fnName, nodeId) :: rest =>
    let r := checkWrapped unwrappedFns rest
    if mapHas unwrappedFns fnName then r
    else (Report.mk .wrappedFnNotUnwrapped nodeId none :: r.1, true)

/-- Body of `exitFunction` after the identity guard (lines 125-191): the
reports emitted when reconciling one scope, in emission order, ending with
the aggregate `badWrap` (carrying the fix synthesized from
`unwrappedFns.keys()`) when any check set `needFix`. -/
def reconcileScope (sc : ScopeData) : List Report :=
  let fixTarget : FixTarget := match sc.typeParameters with
    | none => .insertAfter sc.callee
    | some tps => .replaceNode tps.id
  let s1 := validateDeclaredTypes sc
  let s2 := checkUnwrapped s1.1 sc.unwrappedFns
  let s3 := checkWrapped sc.unwrappedFns s1.1
  let needFix := s1.2.2 || s2.2 || s3.2
  let reports := s1.2.1 ++ s2.1 ++ s3.1
  if needFix then
    reports ++ [Report.mk .badWrap sc.callee (some (RuleFix.mk fixTarget (mapKeys sc.unwrappedFns)))]
  else reports

/-- `exitFunction` (lines 122-194): on the exit of the active scope's
function, reconcile the scope and pop it (`wrappedScope = wrappedScope?.upper`);
unrelated exits are no-ops. -/
def exitFunction (fnId : Nat) (st : St) : St :=
  match st.scopes with
  | [] => st
  | sc :: rest =>
    if sc.fn = fnId then
      { scopes := rest, reports := st.reports ++ reconcileScope sc }
    else st

mutual

/-- The host's depth-first traversal restricted to the node kinds the rule
registers (lines 196-208): a `CallExpression` enter fires `onWrapCall`
then `onUnwrapCall` before its callee and then its arguments are
traversed; a function literal fires `enterFunction`, traverses its body,
then fires `exitFunction`. -/
def visitExpr (wrapName unwrapName : String) (parent : Option Expr) (e : Expr) (st : St) : St :=
  match e with
  | .ident _ _ => st
  | .lit _ => st
  | .awaitE _ argument => visitExpr wrapName unwrapName (some e) argument st
  | .call _ callee _ args =>
    let st1 := onWrapCall wrapName parent e st
    let st2 := onUnwrapCall unwrapName e st1
    let st3 := visitExpr wrapName unwrapName (some e) callee st2
    visitExprs wrapName unwrapName (some e) args st3
  | .fnE fnId _ _ body =>
    let st1 := enterFunction fnId st
    let st2 := visitExprs wrapName unwrapName (some e) body st1
    exitFunction fnId st2
termination_by structural e

/-- Traversal of a list of sibling nodes, left to right. -/
def visitExprs (wrapName unwrapName : String) (parent : Option Expr) (es : List Expr) (st : St) : St :=
  match es with
  | [] => st
  | e :: rest => visitExprs wrapName unwrapName parent rest (visitExpr wrapName unwrapName parent e st)
termination_by structural es

end

/-- Run the rule on a root expression with the given configured names,
starting from the empty state, and collect the emitted reports. -/
def checkProgram (wrapName unwrapName : String) (e : Expr) : List Report :=
  (visitExpr wrapName unwrapName none e (St.mk [] [])).reports

/-! ## Derived definitions used by the verification -/

/-- The name/node recognized by lines 106-119: peel at most one `await`
from the sole argument; if the result is a call expression with a bare
identifier callee, return its name and the call node, else `none`. -/
def unwrapArgTarget (arg : Expr) : Option (String × Nat) :=
  match (match arg with | .awaitE _ argument => argument | a => a) with
  | .call callId (.ident _ fnName) _ _ => some (fnName, callId)
  | _ => none

/-- `wrap<typeof f>()(async () => { unwrap(g()); unwrap(g()) })`: the same
function `g` unwrapped twice; the two inner `g()` call nodes are 3 and 7
(3 first, 7 second). -/
def dupUnwrapProgram : Expr :=
  .call 100
    (.call 101 (.ident 102 "wrap")
      (some (TypeParams.mk 103 [TypeNode.typeQuery 104 (some "f")])) [])
    none
    [.fnE 105 false true
      [.call 1 (.ident 2 "unwrap") none [.call 3 (.ident 4 "g") none []],
       .call 5 (.ident 6 "unwrap") none [.call 7 (.ident 8 "g") none []]]]

mutual

/-- Ids of all function-literal nodes occurring in an expression. -/
def fnIds (e : Expr) : List Nat :=
  match e with
  | .ident _ _ => []
  | .lit _ => []
  | .awaitE _ argument => fnIds argument
  | .call _ callee _ args => fnIds callee ++ fnIdsList args
  | .fnE i _ _ body => i :: fnIdsList body
termination_by structural e

/-- Ids of all function-literal nodes occurring in a list of expressions. -/
def fnIdsList (es : List Expr) : List Nat :=
  match es with
  | [] => []
  | e :: rest => fnIds e ++ fnIdsList rest
termination_by structural es

end

/-! ## The synthesized fix and its re-check (C2) -/

/-- Modelled from the spec and the host interface: the synthesized fix
text `<typeof n1 | ... | typeof nk>` (lines 184-189) is applied by the
host and the analyzed file re-parsed.  `queriesOf` gives the `TSTypeQuery`
nodes the parser produces for the rendered names (fresh node ids from
`idBase`). -/
def queriesOf (idBase : Nat) : List String → List TypeNode
  | [] => []
  | n :: rest => TypeNode.typeQuery idBase (some n) :: queriesOf (idBase + 1) rest

/-- Key/id pairing used to reason about `queriesOf`. -/
def zipIds (idBase : Nat) : List String → List (String × Nat)
  | [] => []
  | n :: rest => (n, idBase) :: zipIds (idBase + 1) rest

/-- Modelled from the spec and the host interface: the type-parameter list
the parser yields for the inserted/replacing text `<...>`: one
`TSTypeQuery` parameter for a single name, one `TSUnionType` parameter for
two or more, and an empty parameter list for zero names (the text `<>`; in
real TypeScript that text does not even parse, which fails the claim's
re-check even more directly). -/
def fixParams (idBase : Nat) : List String → List TypeNode
  | [] => []
  | [n] => [TypeNode.typeQuery idBase (some n)]
  | ns => [TypeNode.unionT idBase (queriesOf (idBase + 1) ns)]

/-- The scope the re-run of the checker reaches at the fixed construct's
function exit: the body — hence `unwrappedFns` — is untouched by the fix,
the type-parameter list is the parsed synthesized one, and `wrappedFns`
starts empty again. -/
def fixedScope (sc : ScopeData) (tpId idBase : Nat) : ScopeData :=
  { sc with
    typeParameters := some (TypeParams.mk tpId (fixParams idBase (mapKeys sc.unwrappedFns)))
    wrappedFns := [] }

/-- Reports of the re-run reconciliation after applying the synthesized
fix. -/
def recheckAfterFix (sc : ScopeData) (tpId idBase : Nat) : List Report :=
  reconcileScope (fixedScope sc tpId idBase)

/-- `wrap()(async () => {})`: a recognized wrap construct with no
type-parameter list and zero recorded unwrap calls. -/
def emptyWrapProgram : Expr :=
  .call 10 (.call 11 (.ident 12 "wrap") none []) none [.fnE 13 false true []]

/-- `emptyWrapProgram` after the host applies the synthesized fix: the fix
inserts `<>` (the union over zero names) after the wrap callee, read here
as an empty type-argument list. -/
def emptyWrapProgramFixed : Expr :=
  .call 10
    (.call 11 (.ident 12 "wrap") (some (TypeParams.mk 50 (fixParams 51 []))) [])
    none [.fnE 13 false true []]


/-! ## Association-list lemmas -/

theorem mapHas_nil (k : String) : mapHas [] k = false := rfl

theorem mapHas_cons (k1 : String) (v1 : Nat) (rest : List (String × Nat)) (k : String) :
    mapHas ((k1, v1) :: rest) k = ((k1 == k) || mapHas rest k) := rfl

theorem mapHas_append (a b : List (String × Nat)) (k : String) :
    mapHas (a ++ b) k = (mapHas a k || mapHas b k) := by
  simp [mapHas, List.any_append]

theorem mapHas_eq_true_iff (m : List (String × Nat)) (k : String) :
    mapHas m k = true ↔ k ∈ mapKeys m := by
  simp only [mapHas, mapKeys, List.any_eq_true, List.mem_map]
  constructor
  · rintro ⟨p, hp, hk⟩
    exact ⟨p, hp, by simpa using hk⟩
  · rintro ⟨p, hp, hk⟩
    exact ⟨p, hp, by simpa using hk⟩

theorem mapHas_eq_false_iff (m : List (String × Nat)) (k : String) :
    mapHas m k = false ↔ k ∉ mapKeys m := by
  rw [← Bool.not_eq_true, not_iff_not]
  exact mapHas_eq_true_iff m k

theorem mapSet_of_not_has (m : List (String × Nat)) (k : String) (v : Nat)
    (h : mapHas m k = false) : mapSet m k v = m ++ [(k, v)] := by
  induction m with
  | nil => rfl
  | cons p rest ih =>
    obtain ⟨k1, v1⟩ := p
    rw [mapHas_cons, Bool.or_eq_false_iff] at h
    simp [mapSet, h.1, ih h.2]

theorem mapGet_mapSet_self (m : List (String × Nat)) (k : String) (v : Nat) :
    mapGet (mapSet m k v) k = some v := by
  induction m with
  | nil => simp [mapSet, mapGet]
  | cons p rest ih =>
    obtain ⟨k1, v1⟩ := p
    by_cases h : k1 = k
    · simp [mapSet, mapGet, h]
    · simp [mapSet, mapGet, h, ih]

theorem mapKeys_mapSet_of_has (m : List (String × Nat)) (k : String) (v : Nat)
    (h : mapHas m k = true) : mapKeys (mapSet m k v) = mapKeys m := by
  induction m with
  | nil => simp [mapHas] at h
  | cons p rest ih =>
    obtain ⟨k1, v1⟩ := p
    by_cases hk : k1 = k
    · simp [mapSet, mapKeys, hk]
    · have hk2 : (k1 == k) = false := beq_eq_false_iff_ne.mpr hk
      rw [mapHas_cons, hk2, Bool.false_or] at h
      simp [mapSet, hk2, mapKeys] at ih ⊢
      exact ih h

/-! ## Characterization of the reconciliation passes -/

theorem processTypes_clean (ds : List (String × Nat)) :
    ∀ (wf : List (String × Nat)),
      (ds.map Prod.fst).Nodup →
      (∀ n ∈ ds.map Prod.fst, mapHas wf n = false) →
      processTypes wf (ds.map (fun p => TypeNode.typeQuery p.2 (some p.1)))
        = (wf ++ ds, [], false) := by
  induction ds with
  | nil => intro wf _ _; simp [processTypes]
  | cons p rest ih =>
    intro wf hnodup hfresh
    obtain ⟨n, i⟩ := p
    simp only [List.map_cons] at hnodup
    have hnotin : n ∉ rest.map Prod.fst := (List.nodup_cons.mp hnodup).1
    have hnodup2 : (rest.map Prod.fst).Nodup := (List.nodup_cons.mp hnodup).2
    have hw : mapHas wf n = false := hfresh n (by simp)
    have hset : mapSet wf n i = wf ++ [(n, i)] := mapSet_of_not_has wf n i hw
    have hfresh2 : ∀ m ∈ rest.map Prod.fst, mapHas (wf ++ [(n, i)]) m = false := by
      intro m hm
      have h1 : mapHas wf m = false := hfresh m (by simp [hm])
      have h2 : (n == m) = false := by
        refine beq_eq_false_iff_ne.mpr ?_
        intro h
        exact hnotin (h ▸ hm)
      rw [mapHas_append, h1, Bool.false_or, mapHas_cons, mapHas_nil, Bool.or_false, h2]
    simp only [List.map_cons, processTypes, hw, Bool.false_eq_true, if_false, hset]
    rw [ih (wf ++ [(n, i)]) hnodup2 hfresh2]
    simp

theorem checkUnwrapped_all_present (wf uw : List (String × Nat))
    (h : ∀ p ∈ uw, mapHas wf p.1 = true) :
    checkUnwrapped wf uw = ([], false) := by
  induction uw with
  | nil => rfl
  | cons p rest ih =>
    obtain ⟨n, i⟩ := p
    have hn : mapHas wf n = true := h (n, i) (by simp)
    simp only [checkUnwrapped, hn, if_true]
    exact ih fun q hq => h q (by simp [hq])

theorem checkWrapped_all_present (uw wf : List (String × Nat))
    (h : ∀ p ∈ wf, mapHas uw p.1 = true) :
    checkWrapped uw wf = ([], false) := by
  induction wf with
  | nil => rfl
  | cons p rest ih =>
    obtain ⟨n, i⟩ := p
    have hn : mapHas uw n = true := h (n, i) (by simp)
    simp only [checkWrapped, hn, if_true]
    exact ih fun q hq => h q (by simp [hq])

/-- Shared cleanliness lemma: a scope whose declared type-parameter list is
a single parameter made of well-formed, duplicate-free type-of references
whose name set coincides with the unwrapped name set reconciles with no
report at all. -/
theorem reconcileScope_eq_nil (sc : ScopeData) (tps : TypeParams) (param : TypeNode)
    (ds : List (String × Nat))
    (hwf : sc.wrappedFns = [])
    (htp : sc.typeParameters = some tps)
    (hparams : tps.params = [param])
    (hds : typesOfParam param = ds.map (fun p => TypeNode.typeQuery p.2 (some p.1)))
    (hnodup : (ds.map Prod.fst).Nodup)
    (hmem : ∀ n, n ∈ ds.map Prod.fst ↔ n ∈ mapKeys sc.unwrappedFns) :
    reconcileScope sc = [] := by
  have hval : validateDeclaredTypes sc = (ds, [], false) := by
    simp only [validateDeclaredTypes, htp, hparams, hds, hwf]
    simpa using processTypes_clean ds [] hnodup (by intro n _; rfl)
  have h2 : checkUnwrapped ds sc.unwrappedFns = ([], false) := by
    refine checkUnwrapped_all_present ds sc.unwrappedFns fun p hp => ?_
    rw [mapHas_eq_true_iff]
    exact (hmem p.1).mpr (List.mem_map.mpr ⟨p, hp, rfl⟩)
  have h3 : checkWrapped sc.unwrappedFns ds = ([], false) := by
    refine checkWrapped_all_present sc.unwrappedFns ds fun p hp => ?_
    rw [mapHas_eq_true_iff]
    exact (hmem p.1).mp (List.mem_map.mpr ⟨p, hp, rfl⟩)
  simp [reconcileScope, hval, h2, h3]

/-- C1: for every recognized wrap construct whose unwrapped-function name
set equals the declared type-reference name set (each declared member a
well-formed type-of-identifier reference, exactly one type parameter, no
duplicates on either side, order-insensitive), the reconciliation at the
matching function exit emits no diagnostic at all: the exit only pops the
scope. -/
theorem wrap_consistent_no_diagnostics (sc : ScopeData) (rest : List ScopeData)
    (reports : List Report) (fnId : Nat) (tps : TypeParams) (param : TypeNode)
    (ds : List (String × Nat))
    (hfn : sc.fn = fnId)
    (hwf : sc.wrappedFns = [])
    (htp : sc.typeParameters = some tps)
    (hparams : tps.params = [param])
    (hds : typesOfParam param = ds.map (fun p => TypeNode.typeQuery p.2 (some p.1)))
    (hnodup : (ds.map Prod.fst).Nodup)
    (hnodupU : (mapKeys sc.unwrappedFns).Nodup)
    (hmem : ∀ n, n ∈ ds.map Prod.fst ↔ n ∈ mapKeys sc.unwrappedFns) :
    exitFunction fnId (St.mk (sc :: rest) reports) = St.mk rest reports := by
  have _hu := hnodupU
  have hrec : reconcileScope sc = [] :=
    reconcileScope_eq_nil sc tps param ds hwf htp hparams hds hnodup hmem
  simp [exitFunction, hfn, hrec]

/-- Closed witness for C1: declared `typeof f | typeof g`, unwrapped
`{g, f}` (other order). -/
theorem wrap_consistent_no_diagnostics_witness :
    exitFunction 13
      (St.mk [ScopeData.mk 13 12
        (some (TypeParams.mk 40 [TypeNode.unionT 41
          [TypeNode.typeQuery 42 (some "f"), TypeNode.typeQuery 43 (some "g")]]))
        true [("g", 9), ("f", 8)] []] []) = St.mk [] [] :=
  wrap_consistent_no_diagnostics _ [] [] 13 _ _ [("f", 42), ("g", 43)]
    rfl rfl rfl rfl rfl (by decide) (by decide)
    (by
      intro n
      simp only [mapKeys, List.map_cons, List.map_nil, List.mem_cons,
        List.not_mem_nil, or_false]
      exact or_comm)

/-! ## Counting and message-shape lemmas -/

theorem countMsg_append (a b : List Report) (m : MessageId) :
    countMsg (a ++ b) m = countMsg a m + countMsg b m := by
  simp [countMsg, List.filter_append]

theorem countMsg_eq_zero (rs : List Report) (m : MessageId)
    (h : ∀ r ∈ rs, r.messageId ≠ m) : countMsg rs m = 0 := by
  rw [countMsg, List.length_eq_zero]
  rw [List.filter_eq_nil_iff]
  intro r hr
  simpa using h r hr

theorem checkUnwrapped_cons_pos (wf : List (String × Nat)) (n : String) (i : Nat)
    (rest : List (String × Nat)) (h : mapHas wf n = true) :
    checkUnwrapped wf ((n, i) :: rest) = checkUnwrapped wf rest := by
  simp [checkUnwrapped, h]

theorem checkUnwrapped_cons_neg (wf : List (String × Nat)) (n : String) (i : Nat)
    (rest : List (String × Nat)) (h : mapHas wf n = false) :
    checkUnwrapped wf ((n, i) :: rest) =
      (Report.mk .unwrapNotInWrap i none :: (checkUnwrapped wf rest).1, true) := by
  simp [checkUnwrapped, h]

theorem checkUnwrapped_messages (wf uw : List (String × Nat)) :
    ∀ r ∈ (checkUnwrapped wf uw).1, r.messageId = .unwrapNotInWrap ∧ r.fix = none := by
  induction uw with
  | nil => simp [checkUnwrapped]
  | cons p rest ih =>
    obtain ⟨n, i⟩ := p
    intro r hr
    by_cases h : mapHas wf n = true
    · rw [checkUnwrapped_cons_pos wf n i rest h] at hr
      exact ih r hr
    · rw [checkUnwrapped_cons_neg wf n i rest (Bool.not_eq_true _ ▸ h)] at hr
      rcases List.mem_cons.mp hr with h1 | h1
      · simp [h1]
      · exact ih r h1

theorem checkWrapped_messages (uw wf : List (String × Nat)) :
    ∀ r ∈ (checkWrapped uw wf).1, r.messageId = .wrappedFnNotUnwrapped ∧ r.fix = none := by
  induction wf with
  | nil => simp [checkWrapped]
  | cons p rest ih =>
    obtain ⟨n, i⟩ := p
    intro r hr
    by_cases h : mapHas uw n = true
    · simp only [checkWrapped, h, if_true] at hr
      exact ih r hr
    · simp only [checkWrapped, Bool.not_eq_true _ ▸ h, Bool.false_eq_true, if_false] at hr
      rcases List.mem_cons.mp hr with h1 | h1
      · simp [h1]
      · exact ih r h1

theorem validateDeclaredTypes_missing (sc : ScopeData)
    (h : sc.typeParameters = none ∨
      ∃ tps, sc.typeParameters = some tps ∧ tps.params.length ≠ 1) :
    validateDeclaredTypes sc =
      (sc.wrappedFns, [Report.mk .missingTypeParamInWrap sc.callee none], true) := by
  rcases h with h | ⟨tps, htp, hlen⟩
  · simp [validateDeclaredTypes, h]
  · rcases hps : tps.params with _ | ⟨p, ps⟩
    · simp [validateDeclaredTypes, htp, hps]
    · rcases ps with _ | ⟨q, qs⟩
      · exact absurd (by rw [hps]; rfl) hlen
      · simp [validateDeclaredTypes, htp, hps]

/-- C5: a recognized wrap construct with no explicit type-parameter list,
or with other than exactly one parameter, yields exactly one
`missingTypeParamInWrap` anchored at the wrap callee, exactly one
`badWrap` carrying the synthesized fix, and the `declaredTypes`
(`wrappedFns`) map stays empty. -/
theorem missing_type_param_reports (sc : ScopeData)
    (hwf : sc.wrappedFns = [])
    (hmiss : sc.typeParameters = none ∨
      ∃ tps, sc.typeParameters = some tps ∧ tps.params.length ≠ 1) :
    countMsg (reconcileScope sc) .missingTypeParamInWrap = 1 ∧
    Report.mk .missingTypeParamInWrap sc.callee none ∈ reconcileScope sc ∧
    countMsg (reconcileScope sc) .badWrap = 1 ∧
    (∃ tgt, Report.mk .badWrap sc.callee
      (some (RuleFix.mk tgt (mapKeys sc.unwrappedFns))) ∈ reconcileScope sc) ∧
    (validateDeclaredTypes sc).1 = [] := by
  have hval := validateDeclaredTypes_missing sc hmiss
  have hmain : ∃ tgt, reconcileScope sc =
      [Report.mk .missingTypeParamInWrap sc.callee none] ++
        (checkUnwrapped [] sc.unwrappedFns).1 ++
        [Report.mk .badWrap sc.callee (some (RuleFix.mk tgt (mapKeys sc.unwrappedFns)))] := by
    rcases hmiss with hnone | ⟨tps, htp, _⟩
    · refine ⟨.insertAfter sc.callee, ?_⟩
      simp [reconcileScope, hval, hwf, hnone, checkWrapped]
    · refine ⟨.replaceNode tps.id, ?_⟩
      simp [reconcileScope, hval, hwf, htp, checkWrapped]
  obtain ⟨tgt, hrc⟩ := hmain
  have hmid0 : countMsg (checkUnwrapped [] sc.unwrappedFns).1 .missingTypeParamInWrap = 0 :=
    countMsg_eq_zero _ _ fun r hr => by
      have := (checkUnwrapped_messages [] sc.unwrappedFns r hr).1
      simp [this]
  have hmid1 : countMsg (checkUnwrapped [] sc.unwrappedFns).1 .badWrap = 0 :=
    countMsg_eq_zero _ _ fun r hr => by
      have := (checkUnwrapped_messages [] sc.unwrappedFns r hr).1
      simp [this]
  refine ⟨?_, ?_, ?_, ⟨tgt, ?_⟩, ?_⟩
  · rw [hrc, countMsg_append, countMsg_append, hmid0]
    simp [countMsg]
  · rw [hrc]; simp
  · rw [hrc, countMsg_append, countMsg_append, hmid1]
    simp [countMsg]
  · rw [hrc]; simp
  · rw [hval, hwf]

/-- Closed witness for C5: `wrap()(async () => { unwrap(f()) })` with no
type-parameter list and one unwrapped call. -/
theorem missing_type_param_reports_witness :
    (ScopeData.mk 13 12 none true [("f", 9)] []).wrappedFns = [] ∧
    (countMsg (reconcileScope (ScopeData.mk 13 12 none true [("f", 9)] []))
        .missingTypeParamInWrap = 1 ∧
      Report.mk .missingTypeParamInWrap 12 none ∈
        reconcileScope (ScopeData.mk 13 12 none true [("f", 9)] []) ∧
      countMsg (reconcileScope (ScopeData.mk 13 12 none true [("f", 9)] [])) .badWrap = 1 ∧
      (∃ tgt, Report.mk .badWrap 12
        (some (RuleFix.mk tgt
          (mapKeys (ScopeData.mk 13 12 none true [("f", 9)] []).unwrappedFns))) ∈
        reconcileScope (ScopeData.mk 13 12 none true [("f", 9)] [])) ∧
      (validateDeclaredTypes (ScopeData.mk 13 12 none true [("f", 9)] [])).1 = []) :=
  ⟨rfl, missing_type_param_reports _ rfl (Or.inl rfl)⟩

/-- C4: declared `{f, g}` (one union type parameter of well-formed
type-of references), unwrapped `{f, h}` (distinct names): reconciliation
emits exactly one `unwrapNotInWrap` anchored at the recorded call node of
`h`, exactly one `wrappedFnNotUnwrapped` anchored at the type reference of
`g`, and exactly one aggregate `badWrap` whose synthesized fix declares
exactly `{f, h}`. -/
theorem asymmetric_mismatch_reports (sc : ScopeData) (tpsId uId tf tg nf nh : Nat)
    (f g h : String)
    (hfg : f ≠ g) (hfh : f ≠ h) (hgh : g ≠ h)
    (hwf : sc.wrappedFns = [])
    (htp : sc.typeParameters = some (TypeParams.mk tpsId
      [TypeNode.unionT uId
        [TypeNode.typeQuery tf (some f), TypeNode.typeQuery tg (some g)]]))
    (huw : sc.unwrappedFns = [(f, nf), (h, nh)]) :
    reconcileScope sc =
      [Report.mk .unwrapNotInWrap nh none,
       Report.mk .wrappedFnNotUnwrapped tg none,
       Report.mk .badWrap sc.callee
         (some (RuleFix.mk (.replaceNode tpsId) [f, h]))] := by
  have hff : (f == f) = true := by simp
  have hfg2 : (f == g) = false := beq_eq_false_iff_ne.mpr hfg
  have hfh2 : (f == h) = false := beq_eq_false_iff_ne.mpr hfh
  have hgh2 : (g == h) = false := beq_eq_false_iff_ne.mpr hgh
  have hgf2 : (g == f) = false := beq_eq_false_iff_ne.mpr (Ne.symm hfg)
  have hhf2 : (h == f) = false := beq_eq_false_iff_ne.mpr (Ne.symm hfh)
  have hhg : h ≠ g := Ne.symm hgh
  simp [reconcileScope, validateDeclaredTypes, htp, huw, hwf, typesOfParam,
    processTypes, checkUnwrapped, checkWrapped, mapHas, mapSet, mapKeys,
    hff, hfg2, hfh2, hgh2, hgf2, hhf2, hhg]

/-- Closed witness for C4 at the names `f`, `g`, `h`. -/
theorem asymmetric_mismatch_reports_witness :
    reconcileScope (ScopeData.mk 13 12
      (some (TypeParams.mk 40
        [TypeNode.unionT 41
          [TypeNode.typeQuery 42 (some "f"), TypeNode.typeQuery 43 (some "g")]]))
      true [("f", 8), ("h", 9)] []) =
      [Report.mk .unwrapNotInWrap 9 none,
       Report.mk .wrappedFnNotUnwrapped 43 none,
       Report.mk .badWrap 12 (some (RuleFix.mk (.replaceNode 40) ["f", "h"]))] :=
  asymmetric_mismatch_reports _ 40 41 42 43 8 9 "f" "g" "h"
    (by decide) (by decide) (by decide) rfl rfl rfl

/-! ## The unwrap-argument predicate -/

/-- Bridging equation: `onUnwrapCall` on a one-argument unwrap call inside
an active, entered scope, expressed through `unwrapArgTarget`. -/
theorem onUnwrapCall_active_eq (unwrapName : String) (sc : ScopeData)
    (rest : List ScopeData) (rs : List Report) (nodeId cid : Nat)
    (tps : Option TypeParams) (arg : Expr)
    (hin : sc.inFn = true) :
    onUnwrapCall unwrapName (.call nodeId (.ident cid unwrapName) tps [arg])
        (St.mk (sc :: rest) rs) =
      match unwrapArgTarget arg with
      | some (fnName, callId) =>
        St.mk ({ sc with unwrappedFns := mapSet sc.unwrappedFns fnName callId } :: rest) rs
      | none => St.mk (sc :: rest) (rs ++ [Report.mk .badUnwrapArg nodeId none]) := by
  cases arg
  case awaitE i argument =>
    cases argument
    case call ci callee2 tps2 args2 =>
      cases callee2 <;> simp [onUnwrapCall, unwrapArgTarget, hin]
    all_goals simp [onUnwrapCall, unwrapArgTarget, hin]
  case call ci callee2 tps2 args2 =>
    cases callee2 <;> simp [onUnwrapCall, unwrapArgTarget, hin]
  all_goals simp [onUnwrapCall, unwrapArgTarget, hin]

/-- C6: for an unwrap call recognized inside an active, entered wrap body
with exactly one argument, `badUnwrapArg` is reported immediately (at
recognition, before any reconciliation) precisely when the argument, after
peeling at most one `await`, is not a call expression with a bare
identifier callee; in that case the scope stack — and hence the later
reconciliation of every name — is untouched and nothing is recorded, and
in the well-formed case no report is emitted and the name is recorded. -/
theorem badUnwrapArg_iff_malformed_argument (unwrapName : String) (sc : ScopeData)
    (rest : List ScopeData) (rs : List Report) (nodeId cid : Nat)
    (tps : Option TypeParams) (arg : Expr)
    (hin : sc.inFn = true) :
    (unwrapArgTarget arg = none →
      onUnwrapCall unwrapName (.call nodeId (.ident cid unwrapName) tps [arg])
          (St.mk (sc :: rest) rs) =
        St.mk (sc :: rest) (rs ++ [Report.mk .badUnwrapArg nodeId none])) ∧
    (∀ fnName callId, unwrapArgTarget arg = some (fnName, callId) →
      onUnwrapCall unwrapName (.call nodeId (.ident cid unwrapName) tps [arg])
          (St.mk (sc :: rest) rs) =
        St.mk ({ sc with unwrappedFns := mapSet sc.unwrappedFns fnName callId } :: rest) rs) := by
  rw [onUnwrapCall_active_eq unwrapName sc rest rs nodeId cid tps arg hin]
  constructor
  · intro hb
    rw [hb]
  · intro fnName callId hb
    rw [hb]

/-- Closed witness for C6: a literal argument inside an entered scope. -/
theorem badUnwrapArg_iff_malformed_argument_witness :
    (ScopeData.mk 13 12 none true [] []).inFn = true ∧
    ((unwrapArgTarget (.lit 3) = none →
      onUnwrapCall "unwrap" (.call 1 (.ident 2 "unwrap") none [.lit 3])
          (St.mk [ScopeData.mk 13 12 none true [] []] []) =
        St.mk [ScopeData.mk 13 12 none true [] []]
          ([] ++ [Report.mk .badUnwrapArg 1 none])) ∧
    (∀ fnName callId, unwrapArgTarget (.lit 3) = some (fnName, callId) →
      onUnwrapCall "unwrap" (.call 1 (.ident 2 "unwrap") none [.lit 3])
          (St.mk [ScopeData.mk 13 12 none true [] []] []) =
        St.mk [{ ScopeData.mk 13 12 none true [] [] with
          unwrappedFns := mapSet (ScopeData.mk 13 12 none true [] []).unwrappedFns
            fnName callId }] [])) :=
  ⟨rfl, badUnwrapArg_iff_malformed_argument "unwrap"
    (ScopeData.mk 13 12 none true [] []) [] [] 1 2 none (.lit 3) rfl⟩

/-- C8: a call to the configured unwrap identifier visited with no active
wrap scope, or before the active scope's body has been entered, produces
no diagnostic and leaves the state unchanged, whatever its arguments (the
wrap-recognition pass also ignores it since its callee is not the wrap
name).  The full CallExpression-enter handling (lines 197-200) is
`onWrapCall` followed by `onUnwrapCall`. -/
theorem unwrap_outside_wrap_ignored (wrapName unwrapName : String) (parent : Option Expr)
    (nodeId cid : Nat) (tps : Option TypeParams) (args : List Expr) (st : St)
    (hnames : unwrapName ≠ wrapName)
    (hguard : st.scopes = [] ∨ ∃ sc rest, st.scopes = sc :: rest ∧ sc.inFn = false) :
    onUnwrapCall unwrapName (.call nodeId (.ident cid unwrapName) tps args)
      (onWrapCall wrapName parent (.call nodeId (.ident cid unwrapName) tps args) st) = st := by
  have hwrap : onWrapCall wrapName parent (.call nodeId (.ident cid unwrapName) tps args) st
      = st := by
    simp [onWrapCall, hnames]
  rw [hwrap]
  obtain ⟨sscopes, sreports⟩ := st
  rcases hguard with hnil | ⟨sc, rest, hsc, hin⟩
  · simp only [] at hnil
    subst hnil
    simp [onUnwrapCall]
  · simp only [] at hsc
    subst hsc
    simp [onUnwrapCall, hin]

/-- Closed witness for C8: empty scope stack. -/
theorem unwrap_outside_wrap_ignored_witness :
    ("unwrap" : String) ≠ "wrap" ∧
    onUnwrapCall "unwrap" (.call 1 (.ident 2 "unwrap") none [.lit 3])
      (onWrapCall "wrap" none (.call 1 (.ident 2 "unwrap") none [.lit 3])
        (St.mk [] [])) = St.mk [] [] :=
  ⟨by decide, unwrap_outside_wrap_ignored "wrap" "unwrap" none 1 2 none [.lit 3]
    (St.mk [] []) (by decide) (Or.inl rfl)⟩

/-- C9: a call to the configured unwrap identifier inside an active,
entered scope whose argument count is not exactly one is ignored: no
diagnostic (in particular no `badUnwrapArg`) and nothing recorded. -/
theorem unwrap_wrong_arity_ignored (unwrapName : String) (sc : ScopeData)
    (rest : List ScopeData) (rs : List Report) (nodeId cid : Nat)
    (tps : Option TypeParams) (args : List Expr)
    (hin : sc.inFn = true) (hlen : args.length ≠ 1) :
    onUnwrapCall unwrapName (.call nodeId (.ident cid unwrapName) tps args)
        (St.mk (sc :: rest) rs) = St.mk (sc :: rest) rs := by
  rcases args with _ | ⟨a, _ | ⟨b, t⟩⟩
  · simp [onUnwrapCall, hin]
  · exact absurd rfl hlen
  · simp [onUnwrapCall, hin]

/-- Closed witness for C9: a zero-argument unwrap call. -/
theorem unwrap_wrong_arity_ignored_witness :
    (ScopeData.mk 13 12 none true [] []).inFn = true ∧
    ([] : List Expr).length ≠ 1 ∧
    onUnwrapCall "unwrap" (.call 1 (.ident 2 "unwrap") none [])
        (St.mk [ScopeData.mk 13 12 none true [] []] []) =
      St.mk [ScopeData.mk 13 12 none true [] []] [] :=
  ⟨rfl, by decide, unwrap_wrong_arity_ignored "unwrap"
    (ScopeData.mk 13 12 none true [] []) [] [] 1 2 none [] rfl (by decide)⟩

/-! ## Duplicate unwraps (C3) -/

/-- C3 counterexample: the `unwrapNotInWrap` report for `g` is anchored at
node 7, the second `g()` occurrence — `Map.set` overwrote the recorded
node — refuting the claim that the recorded call-expression node is the
first occurrence and that later occurrences change nothing. -/
theorem duplicate_unwrap_anchor_cex :
    checkProgram "wrap" "unwrap" dupUnwrapProgram =
      [Report.mk .unwrapNotInWrap 7 none,
       Report.mk .wrappedFnNotUnwrapped 104 none,
       Report.mk .badWrap 102 (some (RuleFix.mk (.replaceNode 103) ["g"]))] ∧
    Report.mk .unwrapNotInWrap 3 none ∉ checkProgram "wrap" "unwrap" dupUnwrapProgram := by
  constructor
  · rfl
  · decide

/-- C3 (amended): `unwrappedFns` maps each unwrapped name to the most
recently recognized unwrap call-site: a later unwrap of an already-present
name overwrites the recorded node with the new call node while keeping the
name's original insertion position in the key order. -/
theorem onUnwrapCall_duplicate_updates_node (unwrapName fnName : String) (sc : ScopeData)
    (rest : List ScopeData) (rs : List Report) (nodeId cid cid2 callId : Nat)
    (tps tps2 : Option TypeParams) (iargs : List Expr)
    (hin : sc.inFn = true)
    (hdup : mapHas sc.unwrappedFns fnName = true) :
    onUnwrapCall unwrapName
        (.call nodeId (.ident cid unwrapName) tps
          [.call callId (.ident cid2 fnName) tps2 iargs])
        (St.mk (sc :: rest) rs) =
      St.mk ({ sc with unwrappedFns := mapSet sc.unwrappedFns fnName callId } :: rest) rs ∧
    mapGet (mapSet sc.unwrappedFns fnName callId) fnName = some callId ∧
    mapKeys (mapSet sc.unwrappedFns fnName callId) = mapKeys sc.unwrappedFns := by
  refine ⟨?_, mapGet_mapSet_self _ _ _, mapKeys_mapSet_of_has _ _ _ hdup⟩
  simp [onUnwrapCall, hin]

/-- Closed witness for the amended C3: `g` already recorded at node 3,
re-unwrapped at node 7. -/
theorem onUnwrapCall_duplicate_updates_node_witness :
    (ScopeData.mk 13 12 none true [("g", 3)] []).inFn = true ∧
    mapHas (ScopeData.mk 13 12 none true [("g", 3)] []).unwrappedFns "g" = true ∧
    (onUnwrapCall "unwrap"
        (.call 5 (.ident 6 "unwrap") none [.call 7 (.ident 8 "g") none []])
        (St.mk [ScopeData.mk 13 12 none true [("g", 3)] []] []) =
      St.mk [{ ScopeData.mk 13 12 none true [("g", 3)] [] with
        unwrappedFns :=
          mapSet (ScopeData.mk 13 12 none true [("g", 3)] []).unwrappedFns "g" 7 }] [] ∧
    mapGet (mapSet (ScopeData.mk 13 12 none true [("g", 3)] []).unwrappedFns "g" 7) "g"
      = some 7 ∧
    mapKeys (mapSet (ScopeData.mk 13 12 none true [("g", 3)] []).unwrappedFns "g" 7)
      = mapKeys (ScopeData.mk 13 12 none true [("g", 3)] []).unwrappedFns) :=
  ⟨rfl, rfl, onUnwrapCall_duplicate_updates_node "unwrap" "g" _ [] [] 5 6 8 7
    none none [] rfl rfl⟩

/-- C10: `badUnwrapArg` never contributes to the needs-fix flag: the
malformed-argument path of `onUnwrapCall` only appends the `badUnwrapArg`
report and leaves the scope stack untouched, so a scope whose declared
list and unwrapped set reconcile cleanly still produces no report at exit
— in particular no `badWrap` and no fix — however many `badUnwrapArg`
reports were emitted inside its body. -/
theorem badUnwrapArg_not_counted_for_fix (unwrapName : String) (sc : ScopeData)
    (rest : List ScopeData) (rs : List Report) (nodeId cid : Nat)
    (tps0 : Option TypeParams) (arg : Expr)
    (tps : TypeParams) (param : TypeNode) (ds : List (String × Nat))
    (hin : sc.inFn = true)
    (hbad : unwrapArgTarget arg = none)
    (hwf : sc.wrappedFns = [])
    (htp : sc.typeParameters = some tps)
    (hparams : tps.params = [param])
    (hds : typesOfParam param = ds.map (fun p => TypeNode.typeQuery p.2 (some p.1)))
    (hnodup : (ds.map Prod.fst).Nodup)
    (hmem : ∀ n, n ∈ ds.map Prod.fst ↔ n ∈ mapKeys sc.unwrappedFns) :
    onUnwrapCall unwrapName (.call nodeId (.ident cid unwrapName) tps0 [arg])
        (St.mk (sc :: rest) rs) =
      St.mk (sc :: rest) (rs ++ [Report.mk .badUnwrapArg nodeId none]) ∧
    reconcileScope sc = [] := by
  constructor
  · rw [onUnwrapCall_active_eq unwrapName sc rest rs nodeId cid tps0 arg hin, hbad]
  · exact reconcileScope_eq_nil sc tps param ds hwf htp hparams hds hnodup hmem

/-- Closed witness for C10: a clean scope (declared and unwrapped both
`{f}`) with a literal-argument unwrap call in its body. -/
theorem badUnwrapArg_not_counted_for_fix_witness :
    (ScopeData.mk 13 12 (some (TypeParams.mk 40 [TypeNode.typeQuery 42 (some "f")]))
      true [("f", 9)] []).inFn = true ∧
    unwrapArgTarget (.lit 3) = none ∧
    (onUnwrapCall "unwrap" (.call 1 (.ident 2 "unwrap") none [.lit 3])
        (St.mk [ScopeData.mk 13 12
          (some (TypeParams.mk 40 [TypeNode.typeQuery 42 (some "f")]))
          true [("f", 9)] []] []) =
      St.mk [ScopeData.mk 13 12
          (some (TypeParams.mk 40 [TypeNode.typeQuery 42 (some "f")]))
          true [("f", 9)] []]
        ([] ++ [Report.mk .badUnwrapArg 1 none]) ∧
    reconcileScope (ScopeData.mk 13 12
      (some (TypeParams.mk 40 [TypeNode.typeQuery 42 (some "f")]))
      true [("f", 9)] []) = []) :=
  ⟨rfl, rfl, badUnwrapArg_not_counted_for_fix "unwrap" _ [] [] 1 2 none (.lit 3)
    _ _ [("f", 42)] rfl rfl rfl rfl rfl rfl (by decide)
    (by intro n; simp [mapKeys])⟩

/-! ## Scope-frame property of the traversal (C7) -/


theorem scope_eta (sc : ScopeData) : { sc with unwrappedFns := sc.unwrappedFns } = sc := rfl

/-- `onWrapCall` either leaves the scope stack alone or pushes one scope. -/
theorem onWrapCall_scopes (wrapName : String) (p : Option Expr) (node : Expr) (st : St) :
    (onWrapCall wrapName p node st).scopes = st.scopes ∨
    ∃ ns, (onWrapCall wrapName p node st).scopes = ns :: st.scopes := by
  unfold onWrapCall
  repeat' split
  all_goals first
    | exact Or.inl rfl
    | exact Or.inr ⟨_, rfl⟩

/-- `onWrapCall` never touches scopes already on the stack. -/
theorem onWrapCall_frame (wrapName : String) (p : Option Expr) (node : Expr) (st : St)
    (pre : List ScopeData) (h : ScopeData) (t : List ScopeData)
    (hst : st.scopes = pre ++ h :: t) :
    ∃ pre2, (onWrapCall wrapName p node st).scopes = pre2 ++ h :: t := by
  rcases onWrapCall_scopes wrapName p node st with heq | ⟨ns, heq⟩
  · exact ⟨pre, by rw [heq, hst]⟩
  · exact ⟨ns :: pre, by rw [heq, hst]; rfl⟩

/-- `onUnwrapCall` either leaves the scope stack alone or only replaces
the head scope's `unwrappedFns`. -/
theorem onUnwrapCall_scopes (unwrapName : String) (node : Expr) (st : St) :
    (onUnwrapCall unwrapName node st).scopes = st.scopes ∨
    ∃ sc rest u2, st.scopes = sc :: rest ∧
      (onUnwrapCall unwrapName node st).scopes = { sc with unwrappedFns := u2 } :: rest := by
  obtain ⟨scopes, reports⟩ := st
  cases scopes with
  | nil => exact Or.inl rfl
  | cons sc rest =>
    simp only [onUnwrapCall]
    repeat' split
    all_goals first
      | exact Or.inl rfl
      | exact Or.inr ⟨sc, rest, _, rfl, rfl⟩

/-- Frame form of the previous lemma: scopes below the head are never
touched by `onUnwrapCall`, and the slot keeps everything but its
`unwrappedFns`. -/
theorem onUnwrapCall_frame (unwrapName : String) (node : Expr) (st : St)
    (pre : List ScopeData) (h : ScopeData) (t : List ScopeData)
    (hst : st.scopes = pre ++ h :: t) :
    ∃ pre2 u2, (onUnwrapCall unwrapName node st).scopes
      = pre2 ++ { h with unwrappedFns := u2 } :: t := by
  rcases onUnwrapCall_scopes unwrapName node st with heq | ⟨sc, rest, u2, hsc, heq⟩
  · exact ⟨pre, h.unwrappedFns, by rw [heq, hst]⟩
  · rw [hst] at hsc
    cases pre with
    | nil =>
      simp only [List.nil_append] at hsc
      injection hsc with h1 h2
      subst h1
      subst h2
      exact ⟨[], u2, heq⟩
    | cons a pre2 =>
      simp only [List.cons_append] at hsc
      injection hsc with h1 h2
      subst h1
      subst h2
      exact ⟨{ a with unwrappedFns := u2 } :: pre2, h.unwrappedFns, by rw [heq]; rfl⟩

/-- `enterFunction` for a function that is not the one a given stacked
scope is waiting on never touches that scope nor anything below it. -/
theorem enterFunction_frame (fnId : Nat) (st : St) (pre : List ScopeData) (h : ScopeData)
    (t : List ScopeData) (hst : st.scopes = pre ++ h :: t) (hfn : h.fn ≠ fnId) :
    ∃ pre2, (enterFunction fnId st).scopes = pre2 ++ h :: t := by
  obtain ⟨scopes, reports⟩ := st
  simp only [] at hst
  subst hst
  cases pre with
  | nil => exact ⟨[], by simp [enterFunction, hfn]⟩
  | cons a pre2 =>
    by_cases ha : a.fn = fnId
    · exact ⟨{ a with inFn := true } :: pre2, by simp [enterFunction, ha]⟩
    · exact ⟨a :: pre2, by simp [enterFunction, ha]⟩

/-- `exitFunction` for a function that is not the one a given stacked
scope is waiting on never pops that scope nor touches anything below it. -/
theorem exitFunction_frame (fnId : Nat) (st : St) (pre : List ScopeData) (h : ScopeData)
    (t : List ScopeData) (hst : st.scopes = pre ++ h :: t) (hfn : h.fn ≠ fnId) :
    ∃ pre2, (exitFunction fnId st).scopes = pre2 ++ h :: t := by
  obtain ⟨scopes, reports⟩ := st
  simp only [] at hst
  subst hst
  cases pre with
  | nil => exact ⟨[], by simp [exitFunction, hfn]⟩
  | cons a pre2 =>
    by_cases ha : a.fn = fnId
    · exact ⟨pre2, by simp [exitFunction, ha]⟩
    · exact ⟨a :: pre2, by simp [exitFunction, ha]⟩

mutual

/-- Frame property of the traversal: if a stacked scope's awaited function
node does not occur in the subtree being visited, then that scope (up to
its `unwrappedFns`) and the whole stack below it survive the visit
untouched. -/
theorem visitExpr_frame (wrapName unwrapName : String) (p : Option Expr) (e : Expr)
    (st : St) (pre : List ScopeData) (h : ScopeData) (t : List ScopeData)
    (hst : st.scopes = pre ++ h :: t) (hfn : h.fn ∉ fnIds e) :
    ∃ pre2 u2, (visitExpr wrapName unwrapName p e st).scopes
      = pre2 ++ { h with unwrappedFns := u2 } :: t := by
  cases e with
  | ident i n => exact ⟨pre, h.unwrappedFns, hst⟩
  | lit i => exact ⟨pre, h.unwrappedFns, hst⟩
  | awaitE i argument =>
    exact visitExpr_frame wrapName unwrapName (some (.awaitE i argument)) argument st
      pre h t hst hfn
  | call i callee tps args =>
    simp only [visitExpr]
    have hfn1 : h.fn ∉ fnIds callee := fun hm => hfn (List.mem_append_left _ hm)
    have hfn2 : h.fn ∉ fnIdsList args := fun hm => hfn (List.mem_append_right _ hm)
    obtain ⟨pre1, hst1⟩ :=
      onWrapCall_frame wrapName p (.call i callee tps args) st pre h t hst
    obtain ⟨pre2, u2, hst2⟩ :=
      onUnwrapCall_frame unwrapName (.call i callee tps args) _ pre1 h t hst1
    obtain ⟨pre3, u3, hst3⟩ :=
      visitExpr_frame wrapName unwrapName (some (.call i callee tps args)) callee _
        pre2 { h with unwrappedFns := u2 } t hst2 hfn1
    obtain ⟨pre4, u4, hst4⟩ :=
      visitExprs_frame wrapName unwrapName (some (.call i callee tps args)) args _
        pre3 { h with unwrappedFns := u3 } t hst3 hfn2
    exact ⟨pre4, u4, hst4⟩
  | fnE i arrow isAsync body =>
    simp only [visitExpr]
    have hne : h.fn ≠ i := by
      intro he
      exact hfn (by rw [he]; exact List.mem_cons_self _ _)
    have hbody : h.fn ∉ fnIdsList body := fun hm => hfn (List.mem_cons_of_mem i hm)
    obtain ⟨pre1, hst1⟩ := enterFunction_frame i st pre h t hst hne
    obtain ⟨pre2, u2, hst2⟩ :=
      visitExprs_frame wrapName unwrapName (some (.fnE i arrow isAsync body)) body _
        pre1 h t hst1 hbody
    obtain ⟨pre3, hst3⟩ :=
      exitFunction_frame i _ pre2 { h with unwrappedFns := u2 } t hst2 hne
    exact ⟨pre3, u2, hst3⟩
termination_by structural e

/-- Frame property of the traversal over sibling lists. -/
theorem visitExprs_frame (wrapName unwrapName : String) (p : Option Expr) (es : List Expr)
    (st : St) (pre : List ScopeData) (h : ScopeData) (t : List ScopeData)
    (hst : st.scopes = pre ++ h :: t) (hfn : h.fn ∉ fnIdsList es) :
    ∃ pre2 u2, (visitExprs wrapName unwrapName p es st).scopes
      = pre2 ++ { h with unwrappedFns := u2 } :: t := by
  cases es with
  | nil => exact ⟨pre, h.unwrappedFns, hst⟩
  | cons e rest =>
    simp only [visitExprs]
    have h1 : h.fn ∉ fnIds e := fun hm => hfn (List.mem_append_left _ hm)
    have h2 : h.fn ∉ fnIdsList rest := fun hm => hfn (List.mem_append_right _ hm)
    obtain ⟨pre1, u1, hst1⟩ := visitExpr_frame wrapName unwrapName p e st pre h t hst h1
    obtain ⟨pre2, u2, hst2⟩ :=
      visitExprs_frame wrapName unwrapName p rest _ pre1 { h with unwrappedFns := u1 } t
        hst1 h2
    exact ⟨pre2, u2, hst2⟩
termination_by structural es

end

/-- C7: nested wrap constructs reconcile independently.  While the
traversal works through the body of an inner wrap construct (whose scope
is the active stack head and whose awaited function node, having unique
identity, does not reoccur inside its own body), every scope below the
active one — in particular the enclosing outer wrap scope — survives
byte-for-byte.  Hence names recorded as unwrapped inside the inner body
never enter the outer scope's `unwrappedFns`, never cause
`unwrapNotInWrap`/`wrappedFnNotUnwrapped` reports for the outer construct,
and never appear in the outer construct's synthesized fix (both are
computed from the outer scope's data at its own exit). -/
theorem inner_body_preserves_outer_scopes (wrapName unwrapName : String) (p : Option Expr)
    (body : List Expr) (st : St) (inner outer : ScopeData) (t : List ScopeData)
    (hsc : st.scopes = inner :: outer :: t)
    (hfn : inner.fn ∉ fnIdsList body) :
    ∃ pre2 u2, (visitExprs wrapName unwrapName p body st).scopes
      = pre2 ++ { inner with unwrappedFns := u2 } :: outer :: t :=
  visitExprs_frame wrapName unwrapName p body st [] inner (outer :: t) hsc hfn

/-- Closed witness for C7: an inner scope over a body containing one
unwrap call, stacked over an outer scope that already recorded `f`. -/
theorem inner_body_preserves_outer_scopes_witness :
    (ScopeData.mk 5 6 none true [] []).fn ∉
      fnIdsList [Expr.call 1 (.ident 2 "unwrap") none [.call 3 (.ident 4 "g") none []]] ∧
    ∃ pre2 u2,
      (visitExprs "wrap" "unwrap" none
        [Expr.call 1 (.ident 2 "unwrap") none [.call 3 (.ident 4 "g") none []]]
        (St.mk [ScopeData.mk 5 6 none true [] [],
                ScopeData.mk 7 8 none true [("f", 9)] []] [])).scopes
      = pre2 ++ { ScopeData.mk 5 6 none true [] [] with unwrappedFns := u2 } ::
          ScopeData.mk 7 8 none true [("f", 9)] [] :: [] :=
  ⟨by decide, inner_body_preserves_outer_scopes "wrap" "unwrap" none
    [Expr.call 1 (.ident 2 "unwrap") none [.call 3 (.ident 4 "g") none []]]
    (St.mk [ScopeData.mk 5 6 none true [] [],
            ScopeData.mk 7 8 none true [("f", 9)] []] [])
    (ScopeData.mk 5 6 none true [] []) (ScopeData.mk 7 8 none true [("f", 9)] []) []
    rfl (by decide)⟩

theorem zipIds_map_fst (b : Nat) (ns : List String) :
    (zipIds b ns).map Prod.fst = ns := by
  induction ns generalizing b with
  | nil => rfl
  | cons n rest ih => simp [zipIds, ih]

theorem queriesOf_eq (b : Nat) (ns : List String) :
    queriesOf b ns = (zipIds b ns).map (fun p => TypeNode.typeQuery p.2 (some p.1)) := by
  induction ns generalizing b with
  | nil => rfl
  | cons n rest ih => simp [queriesOf, zipIds, ih]

/-- C2 (amended): for every scope that recorded at least one unwrap call,
applying the synthesized fix and re-running the reconciliation yields no
diagnostic; with zero recorded unwrap calls the fix synthesizes an empty
union and the re-check reports `missingTypeParamInWrap` again (see the
counterexample). -/
theorem fix_recheck_clean (sc : ScopeData) (tpId idBase : Nat)
    (hne : sc.unwrappedFns ≠ [])
    (hnodup : (mapKeys sc.unwrappedFns).Nodup) :
    recheckAfterFix sc tpId idBase = [] := by
  rw [recheckAfterFix]
  rcases hn : mapKeys sc.unwrappedFns with _ | ⟨n, _ | ⟨n2, ns⟩⟩
  · exact absurd (by simpa [mapKeys] using hn) hne
  · refine reconcileScope_eq_nil (fixedScope sc tpId idBase)
      (TypeParams.mk tpId [TypeNode.typeQuery idBase (some n)])
      (TypeNode.typeQuery idBase (some n)) [(n, idBase)]
      rfl ?_ rfl rfl (by simp) ?_
    · show some (TypeParams.mk tpId (fixParams idBase (mapKeys sc.unwrappedFns))) = _
      rw [hn]
      rfl
    · intro m
      show m ∈ [(n, idBase)].map Prod.fst ↔ m ∈ mapKeys sc.unwrappedFns
      rw [hn]
      exact Iff.rfl
  · refine reconcileScope_eq_nil (fixedScope sc tpId idBase)
      (TypeParams.mk tpId
        [TypeNode.unionT idBase (queriesOf (idBase + 1) (n :: n2 :: ns))])
      (TypeNode.unionT idBase (queriesOf (idBase + 1) (n :: n2 :: ns)))
      (zipIds (idBase + 1) (n :: n2 :: ns))
      rfl ?_ rfl ?_ ?_ ?_
    · show some (TypeParams.mk tpId (fixParams idBase (mapKeys sc.unwrappedFns))) = _
      rw [hn]
      rfl
    · show queriesOf (idBase + 1) (n :: n2 :: ns) = _
      exact queriesOf_eq _ _
    · rw [zipIds_map_fst]
      rw [hn] at hnodup
      exact hnodup
    · intro m
      show m ∈ (zipIds (idBase + 1) (n :: n2 :: ns)).map Prod.fst ↔
        m ∈ mapKeys sc.unwrappedFns
      rw [zipIds_map_fst, hn]

/-- Closed witness for the amended C2: one recorded unwrap call. -/
theorem fix_recheck_clean_witness :
    (ScopeData.mk 13 12 none true [("f", 9)] []).unwrappedFns ≠ [] ∧
    (mapKeys (ScopeData.mk 13 12 none true [("f", 9)] []).unwrappedFns).Nodup ∧
    recheckAfterFix (ScopeData.mk 13 12 none true [("f", 9)] []) 50 51 = [] :=
  ⟨by decide, by decide,
    fix_recheck_clean (ScopeData.mk 13 12 none true [("f", 9)] []) 50 51
      (by decide) (by decide)⟩

/-- C2 counterexample: the construct with zero recorded unwrap calls does
receive a fix (names list `[]`), yet re-running the checker on the fixed
program still reports (`missingTypeParamInWrap` again) — the diagnostic
set after the fix is not empty, refuting the claim for this construct. -/
theorem fix_empty_unwraps_cex :
    checkProgram "wrap" "unwrap" emptyWrapProgram =
      [Report.mk .missingTypeParamInWrap 12 none,
       Report.mk .badWrap 12 (some (RuleFix.mk (.insertAfter 12) []))] ∧
    checkProgram "wrap" "unwrap" emptyWrapProgramFixed ≠ [] := by
  constructor
  · rfl
  · decide
